import Mathlib

/-!
A shallow embedding of the `envconfig` Go package (src/envconfig.go): field
discovery over a configuration structure, environment value resolution, and
string-to-value coercion.  Go's reflective struct walk is embedded as a
recursive walk over an explicit type syntax `Ty` paired with runtime values
`Value`; duck-typed capability interfaces (Decoder / Setter /
TextUnmarshaler / BinaryUnmarshaler) are embedded as an explicit capability
assignment `Ty → Caps`, checked in the source's fixed order.
-/

namespace Envconfig

/-- Model of Go strconv.ParseBool (stdlib collaborator): accepts exactly the
twelve canonical literals. -/
def goParseBool (s : String) : Option Bool :=
  if s = "1" || s = "t" || s = "T" || s = "true" || s = "TRUE" || s = "True" then some true
  else if s = "0" || s = "f" || s = "F" || s = "false" || s = "FALSE" || s = "False" then some false
  else none

/-- Source isTrue: ParseBool with errors treated as false. -/
def isTrue (s : String) : Bool :=
  match goParseBool s with
  | some b => b
  | none => false

/-- Source isFalse: true only when the string parses as a boolean and that
boolean is false. -/
def isFalse (s : String) : Bool :=
  match goParseBool s with
  | some b => !b
  | none => false

/-- The `[A-Z]` character class of the source's regular expressions
(ASCII uppercase only, as in Go's regexp). -/
def isUp (c : Char) : Bool := 'A' ≤ c && c ≤ 'Z'

/-- Model of Go strings.ToUpper (stdlib collaborator), character by
character. -/
def goToUpper (s : String) : String := String.mk (s.toList.map Char.toUpper)

/-- Go's unicode.IsSpace on the ASCII whitespace characters
(space, tab, newline, carriage return, vertical tab, form feed). -/
def goIsSpace (c : Char) : Bool :=
  c = ' ' || c = Char.ofNat 9 || c = Char.ofNat 10 || c = Char.ofNat 13 || c = Char.ofNat 11 || c = Char.ofNat 12

/-- Model of Go strings.TrimSpace (stdlib collaborator): strip whitespace
from both ends. -/
def goTrim (s : String) : String :=
  String.mk (((s.toList.dropWhile goIsSpace).reverse.dropWhile goIsSpace).reverse)

/-- Split on every occurrence of a separator character, keeping empty
parts: the semantics of Go strings.Split with a one-character separator. -/
def splitOnChar (sep : Char) : List Char → List (List Char)
  | [] => [[]]
  | c :: cs =>
    if c = sep then [] :: splitOnChar sep cs
    else
      match splitOnChar sep cs with
      | [] => [[c]]
      | w :: ws => (c :: w) :: ws

/-- Model of Go strings.Split with a one-character separator (stdlib
collaborator). -/
def goSplit (s : String) (sep : Char) : List String :=
  (splitOnChar sep s.toList).map String.mk

/-- The UTF-8 encoding of one character, as byte values. -/
def utf8Bytes (c : Char) : List Nat :=
  let n := c.toNat
  if n < 128 then [n]
  else if n < 2048 then [192 + n / 64, 128 + n % 64]
  else if n < 65536 then [224 + n / 4096, 128 + n / 64 % 64, 128 + n % 64]
  else [240 + n / 262144, 128 + n / 4096 % 64, 128 + n / 64 % 64, 128 + n % 64]

/-- The byte values of `[]byte(s)`: the UTF-8 bytes of the string. -/
def stringBytes (s : String) : List Nat := s.toList.flatMap utf8Bytes

/-- Embedding of `gatherRegexp.FindAllStringSubmatch` for the pattern
`([^A-Z]+|[A-Z]+[^A-Z]+|[A-Z]+)`.  Under Go's leftmost-first greedy
matching, successive matches of this pattern partition the identifier into
maximal chunks, with a chunk boundary exactly between a non-uppercase
character and a following uppercase character: a match starting at a
non-uppercase character is the maximal `[^A-Z]+` run, and a match starting
at an uppercase character greedily takes the whole uppercase run plus (when
present) the following non-uppercase run. -/
def tokenize : List Char → List (List Char)
  | [] => []
  | c :: cs =>
    match tokenize cs with
    | [] => [[c]]
    | [] :: ws => [c] :: ws
    | (d :: w) :: ws =>
      if !isUp c && isUp d then [c] :: (d :: w) :: ws
      else (c :: (d :: w)) :: ws

/-- Embedding of `acronymRegexp.FindStringSubmatch` for the pattern
`([A-Z]+)([A-Z][^A-Z]+)`: an unanchored leftmost search.  A match starts at
an uppercase run of length at least two followed by a non-uppercase
character; greedy matching puts all but the last uppercase letter in the
first group and the last uppercase letter plus the following non-uppercase
run in the second group.  Returns the two submatch groups. -/
def findAcr : List Char → Option (List Char × List Char)
  | [] => none
  | c :: cs =>
    if isUp c then
      let ur := (c :: cs).takeWhile isUp
      let rest := (c :: cs).dropWhile isUp
      if 2 ≤ ur.length && !rest.isEmpty then
        some (ur.dropLast, ur.drop (ur.length - 1) ++ rest.takeWhile (fun x => !isUp x))
      else findAcr cs
    else findAcr cs

/-- The word list built at src/envconfig.go lines 119-128: each regexp word,
with acronym-then-word segments split into their two submatch groups. -/
def splitName (s : String) : List String :=
  ((tokenize s.toList).map (fun w =>
    match findAcr w with
    | some (m1, m2) => [String.mk m1, String.mk m2]
    | none => [String.mk w])).flatten

/-- The struct tags read by the source (`reflect.StructTag.Get` returns the
empty string for an absent tag). -/
structure Tags where
  envconfig : String := ""
  ignored : String := ""
  split_words : String := ""
  defaultTag : String := ""
  required : String := ""
deriving DecidableEq, Repr

/-- Options to change default parsing (source lines 29-33). -/
structure Options where
  splitWords : Bool := false
  required : Bool := false
  parallelExcecution : Bool := false
deriving DecidableEq, Repr

/-- Static description of one struct field: declared identifier, whether it
is anonymous (embedded), whether it is settable (exported), and its tags. -/
structure FieldMeta where
  name : String
  anonymous : Bool := false
  canSet : Bool := true
  tags : Tags := {}
deriving DecidableEq, Repr

/-- Source lines 112-139 without the alternate-name override: the key
derived from the field identifier, word-split when enabled, prefixed and
upper-cased. -/
def fieldKey (opts : Options) ( pfx : String) (fm : FieldMeta) : String :=
  let alt := goToUpper fm.tags.envconfig
  let key1 := fm.name
  let tagSplit := fm.tags.split_words
  let key2 :=
    if isTrue tagSplit || (opts.splitWords && !isFalse tagSplit) then
      let ws := splitName fm.name
      if ws.isEmpty then key1 else String.intercalate "_" ws
    else key1
  let key3 := if alt ≠ "" then alt else key2
  let key4 := if pfx ≠ "" then pfx ++ "_" ++ key3 else key3
  goToUpper key4

/-- The shapes of destination types that `processField` dispatches on
(`reflect.Kind` plus the `time.Duration` special case).  `strct` carries the
field declarations of a structure type; `other` stands for the kinds the
source's switch has no case for (chan, func, interface, complex, array,
uintptr and so on). -/
inductive Ty where
  | str : Ty
  | int (bits : Nat) : Ty
  | duration : Ty
  | uint (bits : Nat) : Ty
  | bool : Ty
  | float (bits : Nat) : Ty
  | ptr (t : Ty) : Ty
  | slice (t : Ty) : Ty
  | mp (k v : Ty) : Ty
  | strct (fields : List (FieldMeta × Ty)) : Ty
  | other : Ty

/-- Runtime Go values: strings, numbers, booleans, pointers (nil or
pointing at a value), slices, maps (as insertion-ordered association
lists), structures (field values in declaration order), and an opaque value
for `other`-shaped types.  Floats are carried exactly as rationals. -/
inductive Value where
  | vstr (s : String) : Value
  | vint (n : Int) : Value
  | vuint (n : Nat) : Value
  | vbool (b : Bool) : Value
  | vfloat (q : Rat) : Value
  | vnil : Value
  | vptr (v : Value) : Value
  | vslice (vs : List Value) : Value
  | vmap (es : List (Value × Value)) : Value
  | vstruct (fs : List Value) : Value
  | vother : Value

/-- Conversion errors produced below `processInfo`: the distinguished
malformed map pair error (`fmt.Errorf("invalid map item: %q", pair)`) and
all other underlying causes as messages. -/
inductive CoerceErr where
  | msg (s : String) : CoerceErr
  | invalidMapItem (pair : String) : CoerceErr
deriving DecidableEq, Repr

/-- The self-conversion capability surface of a type: the four duck-typed
interfaces the source queries (`Decoder`, `Setter`,
`encoding.TextUnmarshaler`, `encoding.BinaryUnmarshaler`), each embedded as
an optional function from the raw string to the value the method leaves in
the receiver (or an error). -/
structure Caps where
  decode : Option (String → Except CoerceErr Value) := none
  setcap : Option (String → Except CoerceErr Value) := none
  text : Option (String → Except CoerceErr Value) := none
  binary : Option (String → Except CoerceErr Value) := none

/-- A capability assignment with none of the four interfaces implemented. -/
def noCaps : Caps := {}

/-- Whether all four capability queries of the source (lines 306-321, and
line 144 in discovery) come back nil. -/
def hasNoCaps (c : Caps) : Bool :=
  c.decode.isNone && c.setcap.isNone && c.text.isNone && c.binary.isNone

mutual
/-- The Go zero value of a type. -/
def zeroValue : Ty → Value
  | .str => .vstr ""
  | .int _ => .vint 0
  | .duration => .vint 0
  | .uint _ => .vuint 0
  | .bool => .vbool false
  | .float _ => .vfloat 0
  | .ptr _ => .vnil
  | .slice _ => .vslice []
  | .mp _ _ => .vmap []
  | .strct fields => .vstruct (zeroFields fields)
  | .other => .vother

/-- Zero values of a structure's fields, in declaration order. -/
def zeroFields : List (FieldMeta × Ty) → List Value
  | [] => []
  | (_, ft) :: fs => zeroValue ft :: zeroFields fs
end

/-- Value of a hexadecimal digit character, if it is one (code points
48-57 are the decimal digits, 97-102 and 65-70 the hex letters). -/
def digitVal (c : Char) : Option Nat :=
  let n := c.toNat
  if 48 ≤ n && n ≤ 57 then some (n - 48)
  else if 97 ≤ n && n ≤ 102 then some (n - 87)
  else if 65 ≤ n && n ≤ 70 then some (n - 55)
  else none

/-- Accumulate digits of the given base most-significant first. -/
def parseDigitsAux (base : Nat) (acc : Nat) : List Char → Option Nat
  | [] => some acc
  | c :: cs =>
    match digitVal c with
    | some d => if d < base then parseDigitsAux base (acc * base + d) cs else none
    | none => none

/-- A non-empty digit string of the given base, as a natural number. -/
def parseDigits (base : Nat) : List Char → Option Nat
  | [] => none
  | c :: cs => parseDigitsAux base 0 (c :: cs)

/-- Base-prefix recognition of Go strconv with base argument 0: `0x`/`0X`
hexadecimal, `0o`/`0O` octal, `0b`/`0B` binary, other leading `0` octal,
else decimal (a lone `"0"` parses as the decimal digit zero either way). -/
def splitBasePrefix : List Char → Nat × List Char
  | '0' :: x :: rest =>
    if x = 'x' || x = 'X' then (16, rest)
    else if x = 'o' || x = 'O' then (8, rest)
    else if x = 'b' || x = 'B' then (2, rest)
    else (8, x :: rest)
  | l => (10, l)

/-- Model of Go strconv.ParseUint with base 0 (stdlib collaborator;
underscore digit separators are outside the model): no sign, optional base
prefix, digits, and a bit-width range check. -/
def goParseUint (s : String) (bits : Nat) : Except CoerceErr Nat :=
  match s.toList with
  | [] => .error (.msg "ParseUint: invalid syntax")
  | c :: cs =>
    let p := splitBasePrefix (c :: cs)
    match parseDigits p.1 p.2 with
    | none => .error (.msg "ParseUint: invalid syntax")
    | some n => if n < 2 ^ bits then .ok n else .error (.msg "ParseUint: value out of range")

/-- Model of Go strconv.ParseInt with base 0 (stdlib collaborator;
underscore digit separators are outside the model): optional sign, then the
unsigned syntax, with the signed bit-width range check. -/
def goParseInt (s : String) (bits : Nat) : Except CoerceErr Int :=
  match s.toList with
  | [] => .error (.msg "ParseInt: invalid syntax")
  | c :: cs =>
    let neg := c = '-'
    let body := if c = '-' || c = '+' then cs else c :: cs
    match body with
    | [] => .error (.msg "ParseInt: invalid syntax")
    | d :: ds =>
      let p := splitBasePrefix (d :: ds)
      match parseDigits p.1 p.2 with
      | none => .error (.msg "ParseInt: invalid syntax")
      | some n =>
        if neg then
          if n ≤ 2 ^ (bits - 1) then .ok (-(n : Int)) else .error (.msg "ParseInt: value out of range")
        else
          if n < 2 ^ (bits - 1) then .ok (n : Int) else .error (.msg "ParseInt: value out of range")

/-- Model of Go strconv.ParseFloat (stdlib collaborator; decimal mantissa
with optional fraction and decimal exponent — hex floats, infinities, NaN
and underscore separators are outside the model).  The value is kept exact
as a rational. -/
def goParseFloat (s : String) : Except CoerceErr Rat :=
  match s.toList with
  | [] => .error (.msg "ParseFloat: invalid syntax")
  | c :: cs =>
    let neg := c = '-'
    let body := if c = '-' || c = '+' then cs else c :: cs
    let splitAt := fun (p : Char → Bool) (l : List Char) => (l.takeWhile (fun x => !p x), l.dropWhile (fun x => !p x))
    let me := splitAt (fun x => x = 'e' || x = 'E') body
    let mant := me.1
    let ip := splitAt (fun x => x = '.') mant
    let intPart := ip.1
    let fracPart := match ip.2 with
      | [] => []
      | _ :: f => f
    let allDigits := (intPart ++ fracPart).all (fun d => '0' ≤ d && d ≤ '9')
    if intPart ++ fracPart = [] || !allDigits || (ip.2 ≠ [] && (ip.2.drop 1).any (fun x => x = '.')) then
      .error (.msg "ParseFloat: invalid syntax")
    else
      let mval : Rat := ((parseDigitsAux 10 0 (intPart ++ fracPart)).getD 0 : Nat) / ((10 : Rat) ^ fracPart.length)
      let signed := if neg then -mval else mval
      match me.2 with
      | [] => .ok signed
      | _ :: e =>
        let eneg := e.head? = some '-'
        let ebody := match e with
          | x :: rest => if x = '-' || x = '+' then rest else x :: rest
          | [] => []
        match parseDigits 10 ebody with
        | none => .error (.msg "ParseFloat: invalid syntax")
        | some k => .ok (if eneg then signed / (10 : Rat) ^ k else signed * (10 : Rat) ^ k)

/-- Nanoseconds per duration unit accepted by Go time.ParseDuration. -/
def durationUnit : List Char → Option (Nat × List Char)
  | 'n' :: 's' :: rest => some (1, rest)
  | 'u' :: 's' :: rest => some (1000, rest)
  | 'µ' :: 's' :: rest => some (1000, rest)
  | 'μ' :: 's' :: rest => some (1000, rest)
  | 'm' :: 's' :: rest => some (1000000, rest)
  | 's' :: rest => some (1000000000, rest)
  | 'm' :: rest => some (60000000000, rest)
  | 'h' :: rest => some (3600000000000, rest)
  | _ => none

/-- One `<integer><unit>` leg of a duration, returning its nanosecond count
and the remaining input. -/
def durationLeg (l : List Char) : Option (Nat × List Char) :=
  let ds := l.takeWhile (fun d => '0' ≤ d && d ≤ '9')
  let rest := l.dropWhile (fun d => '0' ≤ d && d ≤ '9')
  match parseDigitsAux 10 0 ds with
  | none => none
  | some n =>
    if ds.isEmpty then none
    else
      match durationUnit rest with
      | some (u, rest') => some (n * u, rest')
      | none => none

/-- Sum of consecutive duration legs. -/
def durationLegs : Nat → List Char → Option Nat
  | _, [] => some 0
  | 0, _ => none
  | fuel + 1, l =>
    match durationLeg l with
    | none => none
    | some (n, rest) =>
      if rest.length < l.length then
        match durationLegs fuel rest with
        | none => none
        | some m => some (n + m)
      else none

/-- Model of Go time.ParseDuration (stdlib collaborator; integral legs such
as `"1h30m"` — fractional legs are outside the model): optional sign, the
literal `"0"`, or one or more number-unit legs, summed in nanoseconds. -/
def goParseDuration (s : String) : Except CoerceErr Int :=
  match s.toList with
  | [] => .error (.msg "ParseDuration: invalid duration")
  | c :: cs =>
    let neg := c = '-'
    let body := if c = '-' || c = '+' then cs else c :: cs
    if body = ['0'] then .ok 0
    else
      match body with
      | [] => .error (.msg "ParseDuration: invalid duration")
      | _ =>
        match durationLegs body.length body with
        | none => .error (.msg "ParseDuration: invalid duration")
        | some n => .ok (if neg then -(n : Int) else (n : Int))

mutual
/-- Equality of runtime values, modelling Go's key equality for map
insertion. -/
def valueBEq : Value → Value → Bool
  | .vstr a, .vstr b => a == b
  | .vint a, .vint b => a == b
  | .vuint a, .vuint b => a == b
  | .vbool a, .vbool b => a == b
  | .vfloat a, .vfloat b => a == b
  | .vnil, .vnil => true
  | .vptr a, .vptr b => valueBEq a b
  | .vslice a, .vslice b => valueListBEq a b
  | .vmap a, .vmap b => valuePairsBEq a b
  | .vstruct a, .vstruct b => valueListBEq a b
  | .vother, .vother => true
  | _, _ => false

/-- Pointwise equality of value lists. -/
def valueListBEq : List Value → List Value → Bool
  | [], [] => true
  | a :: as', b :: bs' => valueBEq a b && valueListBEq as' bs'
  | _, _ => false

/-- Pointwise equality of value pair lists. -/
def valuePairsBEq : List (Value × Value) → List (Value × Value) → Bool
  | [], [] => true
  | a :: as', b :: bs' => valueBEq a.1 b.1 && valueBEq a.2 b.2 && valuePairsBEq as' bs'
  | _, _ => false
end

/-- `mp.SetMapIndex(k, v)`: replace the binding of an existing equal key,
otherwise append a new binding. -/
def mapInsert (es : List (Value × Value)) (k v : Value) : List (Value × Value) :=
  if es.any (fun e => valueBEq e.1 k) then
    es.map (fun e => if valueBEq e.1 k then (e.1, v) else e)
  else es ++ [(k, v)]

/-- Map lookup over the association-list model. -/
def mapLookup (es : List (Value × Value)) (k : Value) : Option Value :=
  (es.find? (fun e => valueBEq e.1 k)).map (fun e => e.2)

/-- Every type syntax tree has positive size. -/
theorem ty_sizeOf_pos (t : Ty) : 0 < sizeOf t := by
  cases t <;> simp_arith

/-- `typ.Elem().Kind() == reflect.Uint8` (source line 372): whether a
slice's element type is byte-sized. -/
def tyIsByte : Ty → Bool
  | .uint 8 => true
  | _ => false

/-- src/envconfig.go lines 306-321: try the four self-conversion
capabilities in order — decode, set, text-unmarshal, binary-unmarshal —
and let the first present one take over the conversion entirely; with none
present, run the given built-in fallback. -/
def capsFirst (c : Caps) (value : String) (fallback : Except CoerceErr Value) : Except CoerceErr Value :=
  match c.decode with
  | some d => d value
  | none =>
    match c.setcap with
    | some s => s value
    | none =>
      match c.text with
      | some t => t value
      | none =>
        match c.binary with
        | some b => b value
        | none => fallback

/-- The element loop of the slice case (source lines 376-382): coerce each
piece with the element coercion, stopping at the first error. -/
def convList (f : String → Except CoerceErr Value) : List String → Except CoerceErr (List Value)
  | [] => .ok []
  | s :: rest =>
    match f s with
    | .error e => .error e
    | .ok x =>
      match convList f rest with
      | .error e => .error e
      | .ok xs => .ok (x :: xs)

/-- The pair loop of the map case (source lines 388-405): split each pair
on every `:`, demand exactly two parts, coerce both sides, and insert with
`SetMapIndex` semantics. -/
def convPairs (fk fv : String → Except CoerceErr Value) : List String → List (Value × Value) → Except CoerceErr (List (Value × Value))
  | [], acc => .ok acc
  | p :: rest, acc =>
    let kv := goSplit p ':'
    if kv.length = 2 then
      match fk (kv.getD 0 "") with
      | .error e => .error e
      | .ok k =>
        match fv (kv.getD 1 "") with
        | .error e => .error e
        | .ok v => convPairs fk fv rest (mapInsert acc k v)
    else .error (.invalidMapItem p)

/-- The two entry points of `processField` (source lines 303-411) at one
destination type: `full` is the whole function — capability dispatch, then
the single pointer unwrap, then the kind switch — and `sw` is the switch
alone, which is what runs on the pointee after the unwrap (the source does
not re-check capabilities there). -/
structure ConvFns where
  full : String → Value → Except CoerceErr Value
  sw : String → Value → Except CoerceErr Value

/-- The coercion semantics of src/envconfig.go lines 303-411, by recursion
on the destination type.  Each case builds the kind switch `sw` for that
type (lines 332-408: strings verbatim; integers via ParseInt with the
`time.Duration` special case; unsigned, boolean, float via their parsers;
byte slices from the raw bytes; other slices split on `,` with a full
recursive element coercion; maps split on `,` and `:` with full recursive
side coercions and last-write-wins insertion; every other kind — including
a pointer kind left after the single unwrap — leaves the destination
unchanged), and pairs it with `full` = capability dispatch followed by the
pointer unwrap (lines 324-330: a nil pointer gets a fresh zero pointee, and
the switch then runs on the pointee without re-checking capabilities). -/
def conv (capsOf : Ty → Caps) : Ty → ConvFns
  | .str =>
    let swf : String → Value → Except CoerceErr Value := fun value _ => .ok (.vstr value)
    ⟨fun value cur => capsFirst (capsOf .str) value (swf value cur), swf⟩
  | .int bits =>
    let swf : String → Value → Except CoerceErr Value := fun value _ => (goParseInt value bits).map .vint
    ⟨fun value cur => capsFirst (capsOf (.int bits)) value (swf value cur), swf⟩
  | .duration =>
    let swf : String → Value → Except CoerceErr Value := fun value _ => (goParseDuration value).map .vint
    ⟨fun value cur => capsFirst (capsOf .duration) value (swf value cur), swf⟩
  | .uint bits =>
    let swf : String → Value → Except CoerceErr Value := fun value _ => (goParseUint value bits).map .vuint
    ⟨fun value cur => capsFirst (capsOf (.uint bits)) value (swf value cur), swf⟩
  | .bool =>
    let swf : String → Value → Except CoerceErr Value := fun value _ =>
      match goParseBool value with
      | some b => .ok (.vbool b)
      | none => .error (.msg "ParseBool: invalid syntax")
    ⟨fun value cur => capsFirst (capsOf .bool) value (swf value cur), swf⟩
  | .float bits =>
    let swf : String → Value → Except CoerceErr Value := fun value _ => (goParseFloat value).map .vfloat
    ⟨fun value cur => capsFirst (capsOf (.float bits)) value (swf value cur), swf⟩
  | .ptr t =>
    let f := conv capsOf t
    let swf : String → Value → Except CoerceErr Value := fun _ cur => .ok cur
    ⟨fun value cur =>
      capsFirst (capsOf (.ptr t)) value
        ((f.sw value
          (match cur with
           | .vptr v => v
           | _ => zeroValue t)).map .vptr), swf⟩
  | .slice t =>
    let f := conv capsOf t
    let swf : String → Value → Except CoerceErr Value := fun value _ =>
      if tyIsByte t then .ok (.vslice ((stringBytes value).map (fun b => .vuint b)))
      else if goTrim value = "" then .ok (.vslice [])
      else
        match convList (fun s => f.full s (zeroValue t)) (goSplit value ',') with
        | .error e => .error e
        | .ok xs => .ok (.vslice xs)
    ⟨fun value cur => capsFirst (capsOf (.slice t)) value (swf value cur), swf⟩
  | .mp kt vt =>
    let fk := conv capsOf kt
    let fv := conv capsOf vt
    let swf : String → Value → Except CoerceErr Value := fun value _ =>
      if goTrim value = "" then .ok (.vmap [])
      else
        match convPairs (fun s => fk.full s (zeroValue kt)) (fun s => fv.full s (zeroValue vt)) (goSplit value ',') [] with
        | .error e => .error e
        | .ok es => .ok (.vmap es)
    ⟨fun value cur => capsFirst (capsOf (.mp kt vt)) value (swf value cur), swf⟩
  | .strct fields =>
    let swf : String → Value → Except CoerceErr Value := fun _ cur => .ok cur
    ⟨fun value cur => capsFirst (capsOf (.strct fields)) value (swf value cur), swf⟩
  | .other =>
    let swf : String → Value → Except CoerceErr Value := fun _ cur => .ok cur
    ⟨fun value cur => capsFirst (capsOf .other) value (swf value cur), swf⟩

/-- `processField` (source lines 303-411): the full conversion of a found
value string into a destination. -/
def processField (capsOf : Ty → Caps) (value : String) (ty : Ty) (cur : Value) : Except CoerceErr Value :=
  (conv capsOf ty).full value cur

/-- The built-in kind switch alone (source lines 332-408). -/
def coerceSwitch (capsOf : Ty → Caps) (value : String) (ty : Ty) (cur : Value) : Except CoerceErr Value :=
  (conv capsOf ty).sw value cur

/-- Source lines 324-330 followed by the switch: the built-in fallback that
runs when no capability is present — unwrap one pointer level (allocating a
fresh zero pointee when the field is nil) and dispatch on the resulting
shape. -/
def fallbackCoerce (capsOf : Ty → Caps) (value : String) (ty : Ty) (cur : Value) : Except CoerceErr Value :=
  match ty with
  | .ptr t =>
    (coerceSwitch capsOf value t
      (match cur with
       | .vptr v => v
       | _ => zeroValue t)).map .vptr
  | t2 => coerceSwitch capsOf value t2 cur

/-- One step of a destination path: a struct field index or a pointer
dereference.  A path embeds the write-through `reflect.Value` handle a
descriptor keeps into the live configuration structure. -/
inductive Step where
  | fld (i : Nat) : Step
  | deref : Step
deriving DecidableEq, Repr

/-- Read the value stored at a path. -/
def getPath : Value → List Step → Option Value
  | v, [] => some v
  | .vstruct fs, .fld i :: rest =>
    match fs[i]? with
    | some v => getPath v rest
    | none => none
  | .vptr v, .deref :: rest => getPath v rest
  | _, _ => none

/-- Write a value at a path, rebuilding the containers around it. -/
def setPath : Value → List Step → Value → Option Value
  | _, [], nv => some nv
  | .vstruct fs, .fld i :: rest, nv =>
    match fs[i]? with
    | some v => (setPath v rest nv).map (fun v' => .vstruct (fs.set i v'))
    | none => none
  | .vptr v, .deref :: rest, nv => (setPath v rest nv).map .vptr
  | _, _, _ => none

/-- src/envconfig.go lines 92-102: follow pointers; a nil pointer to a
structure is allocated to a fresh zero instance and followed, a nil pointer
to anything else stops the walk at the pointer field itself.  Returns the
destination's type, the destination's current value, the field's value
after any allocations, and the dereference steps from the field to the
destination. -/
def derefAlloc : Ty → Value → Ty × Value × Value × List Step
  | .ptr t, .vnil =>
    match t with
    | .strct fs =>
      match derefAlloc (.strct fs) (zeroValue (.strct fs)) with
      | (dty, dval, inner', steps) => (dty, dval, .vptr inner', .deref :: steps)
    | _ => (.ptr t, .vnil, .vnil, [])
  | .ptr t, .vptr inner =>
    match derefAlloc t inner with
    | (dty, dval, inner', steps) => (dty, dval, .vptr inner', .deref :: steps)
  | .ptr t, v => (.ptr t, v, v, [])
  | t, v => (t, v, v, [])

/-- The destination type reached by the pointer walk is no larger than the
declared field type. -/
theorem derefAlloc_fst_sizeOf (t : Ty) (v : Value) : sizeOf (derefAlloc t v).1 ≤ sizeOf t := by
  induction t, v using derefAlloc.induct with
  | case1 fs dty dval inner' steps h ih =>
    rw [h] at ih
    simp only [derefAlloc, h]
    simp_arith at ih ⊢
  | case2 t hne =>
    cases t with
    | strct fs => exact (hne fs rfl).elim
    | _ => simp [derefAlloc]
  | case3 t inner dty dval inner' steps h ih =>
    rw [h] at ih
    simp only [derefAlloc, h]
    simp_arith at ih ⊢
    omega
  | case4 t v h1 h2 =>
    cases v with
    | vnil => exact (h1 rfl).elim
    | vptr i => exact (h2 i rfl).elim
    | _ => simp [derefAlloc]
  | case5 t v h1 h2 h3 =>
    cases t with
    | ptr t2 => exact (h3 t2 rfl).elim
    | _ => simp [derefAlloc]

/-- The binding descriptor (`varInfo`, source lines 62-68), with the
destination handle embedded as the destination's type and path. -/
structure VarInfo where
  name : String
  alt : String
  key : String
  ty : Ty
  path : List Step
  tags : Tags

/-- The field values of a structure value. -/
def structFields : Value → List Value
  | .vstruct fs => fs
  | _ => []

/-- src/envconfig.go lines 85-160: the discovery loop over one structure's
declared fields, carrying the enclosing prefix, the path of the structure
and the index of the next field.  Returns the descriptors in discovery
order together with the field values after nil-pointer allocation.  A
structure-typed destination without any self-conversion capability is
recursed into, and its own descriptor is replaced by its children's
(line 155); a named nested structure passes its own derived key as the
inner prefix while an anonymous field passes the outer prefix through
(lines 145-148). -/
def gatherStruct (capsOf : Ty → Caps) (opts : Options) ( pfx : String) (base : List Step) (idx : Nat) (fields : List (FieldMeta × Ty)) (vals : List Value) : List VarInfo × List Value :=
  match fields, vals with
  | [], vs => ([], vs)
  | _ :: _, [] => ([], [])
  | (fm, ft) :: fs, v :: vs =>
    match gatherStruct capsOf opts pfx base (idx + 1) fs vs with
    | (restInfos, restVals) =>
      if !fm.canSet || isTrue fm.tags.ignored then (restInfos, v :: restVals)
      else
        match h1 : derefAlloc ft v with
        | (dty, dval, v1, steps) =>
          let info : VarInfo :=
            { name := fm.name
              alt := goToUpper fm.tags.envconfig
              key := fieldKey opts pfx fm
              ty := dty
              path := base ++ (Step.fld idx :: steps)
              tags := fm.tags }
          match h2 : dty with
          | .strct innerFields =>
            if hasNoCaps (capsOf (.strct innerFields)) then
              let innerPfx := if fm.anonymous then pfx else info.key
              match gatherStruct capsOf opts innerPfx (base ++ (Step.fld idx :: steps)) 0 innerFields (structFields dval) with
              | (childInfos, newInner) =>
                let v2 := (setPath v1 steps (.vstruct newInner)).getD v1
                (childInfos ++ restInfos, v2 :: restVals)
            else (info :: restInfos, v1 :: restVals)
          | _ => (info :: restInfos, v1 :: restVals)
termination_by sizeOf fields
decreasing_by
  · simp_arith
  · have hs := derefAlloc_fst_sizeOf ft v
    rw [h1] at hs
    subst h2
    simp_arith at hs ⊢
    omega

/-- Errors of the resolution phase. -/
inductive ProcErr where
  | invalidSpecification : ProcErr
  | requiredMissing (key : String) : ProcErr
  | parseError (keyName fieldName : String) (ty : Ty) (value : String) (err : CoerceErr) : ProcErr

/-- src/envconfig.go lines 257-260: look up the key, then the alternate key
when the key is absent and an alternate is set.  The boolean distinguishes
present-but-empty from absent. -/
def lookupVal (env : String → Option String) (info : VarInfo) : String × Bool :=
  match env info.key with
  | some v => (v, true)
  | none =>
    if info.alt ≠ "" then
      match env info.alt with
      | some v => (v, true)
      | none => ("", false)
    else ("", false)

/-- src/envconfig.go lines 251-289 (`processInfo`): resolve a value (key,
alternate key, default), enforce the required policy when nothing was
found, and otherwise coerce, wrapping conversion failures in a ParseError.
Returns `some` of the new destination value when a write happens and `none`
when the field is skipped. -/
def processInfo (capsOf : Ty → Caps) (env : String → Option String) (opts : Options) (info : VarInfo) (cur : Value) : Except ProcErr (Option Value) :=
  let lv := lookupVal env info
  let dflt := info.tags.defaultTag
  let value := if dflt ≠ "" && !lv.2 then dflt else lv.1
  if !lv.2 && dflt = "" then
    if isTrue info.tags.required || (opts.required && !isFalse info.tags.required) then
      .error (.requiredMissing (if info.alt ≠ "" then info.alt else info.key))
    else .ok none
  else
    match processField capsOf value info.ty cur with
    | .error e => .error (.parseError info.key info.name info.ty value e)
    | .ok v => .ok (some v)

/-- src/envconfig.go lines 240-248: the sequential resolution loop —
descriptors in discovery order, stopping at the first error.  Returns the
configuration value reached and the error, if any. -/
def processSeq (capsOf : Ty → Caps) (env : String → Option String) (opts : Options) : List VarInfo → Value → Value × Option ProcErr
  | [], st => (st, none)
  | info :: rest, st =>
    match processInfo capsOf env opts info ((getPath st info.path).getD .vother) with
    | .error e => (st, some e)
    | .ok none => processSeq capsOf env opts rest st
    | .ok (some v') => processSeq capsOf env opts rest ((setPath st info.path v').getD st)

/-- `ProcessWithOptions` with parallel execution disabled (source lines
206-210 and 240-248): discovery, then the sequential loop.  A root that is
not a structure fails with the invalid-specification error. -/
def processSequential (capsOf : Ty → Caps) (env : String → Option String) ( pfx : String) (ty : Ty) (v : Value) (opts : Options) : Value × Option ProcErr :=
  match ty, v with
  | .strct fields, .vstruct vs =>
    match gatherStruct capsOf opts pfx [] 0 fields vs with
    | (infos, vs') => processSeq capsOf env opts infos (.vstruct vs')
  | _, _ => (v, some .invalidSpecification)

/-! Helper lemmas shared by the claim theorems. -/

/-- The defining split of `processField`: capability dispatch first, the
built-in fallback when no capability answers. -/
theorem processField_eq (capsOf : Ty → Caps) (value : String) (ty : Ty) (cur : Value) :
    processField capsOf value ty cur =
      capsFirst (capsOf ty) value (fallbackCoerce capsOf value ty cur) := by
  cases ty <;> rfl

/-- With no capability present, `processField` is the built-in fallback. -/
theorem processField_noCaps (capsOf : Ty → Caps) (value : String) (ty : Ty) (cur : Value)
    (h : capsOf ty = noCaps) :
    processField capsOf value ty cur = fallbackCoerce capsOf value ty cur := by
  rw [processField_eq, h]
  rfl

/-- With no capability on the string shape, coercion assigns the raw string
verbatim. -/
theorem processField_str (capsOf : Ty → Caps) (h : capsOf .str = noCaps) (s : String) (cur : Value) :
    processField capsOf s .str cur = .ok (.vstr s) := by
  rw [processField_noCaps capsOf s .str cur h]
  rfl

/-- When both lookups miss, `lookupVal` reports absent with an empty
string. -/
theorem lookupVal_none (env : String → Option String) (info : VarInfo)
    (hk : env info.key = none) (ha : info.alt ≠ "" → env info.alt = none) :
    lookupVal env info = ("", false) := by
  by_cases h : info.alt = ""
  · simp [lookupVal, hk, h]
  · simp [lookupVal, hk, h, ha h]

/-! The claim theorems. -/

/-- C5: For every destination and every found value string, conversion
tries the destination's self-conversion capabilities in the fixed order
decode-from-string, then set-from-string, then unmarshal-from-text, then
unmarshal-from-binary, and only if none is present falls back to built-in
coercion by target shape; the first matching capability takes over the
conversion entirely. -/
theorem conversion_precedence (capsOf : Ty → Caps) (value : String) (ty : Ty) (cur : Value) :
    (∀ d, (capsOf ty).decode = some d → processField capsOf value ty cur = d value) ∧
    (∀ s, (capsOf ty).decode = none → (capsOf ty).setcap = some s →
      processField capsOf value ty cur = s value) ∧
    (∀ t, (capsOf ty).decode = none → (capsOf ty).setcap = none → (capsOf ty).text = some t →
      processField capsOf value ty cur = t value) ∧
    (∀ b, (capsOf ty).decode = none → (capsOf ty).setcap = none → (capsOf ty).text = none →
      (capsOf ty).binary = some b → processField capsOf value ty cur = b value) ∧
    ((capsOf ty).decode = none → (capsOf ty).setcap = none → (capsOf ty).text = none →
      (capsOf ty).binary = none →
      processField capsOf value ty cur = fallbackCoerce capsOf value ty cur) := by
  refine ⟨?_, ?_, ?_, ?_, ?_⟩
  · intro d hd
    rw [processField_eq]
    simp only [capsFirst, hd]
  · intro s h1 h2
    rw [processField_eq]
    simp only [capsFirst, h1, h2]
  · intro t h1 h2 h3
    rw [processField_eq]
    simp only [capsFirst, h1, h2, h3]
  · intro b h1 h2 h3 h4
    rw [processField_eq]
    simp only [capsFirst, h1, h2, h3, h4]
  · intro h1 h2 h3 h4
    rw [processField_eq]
    simp only [capsFirst, h1, h2, h3, h4]

/-- C10: For every destination whose target shape has no self-conversion
capability and is none of the built-in coercible shapes, conversion of any
found value string succeeds without error and leaves the destination
unchanged. -/
theorem unsupported_shape_noop (capsOf : Ty → Caps) (value : String) (cur : Value) (ty : Ty)
    (hc : capsOf ty = noCaps)
    (hshape : ty = .other ∨ ∃ fs, ty = .strct fs) :
    processField capsOf value ty cur = .ok cur := by
  rcases hshape with h | ⟨fs, h⟩ <;> subst h <;>
    rw [processField_noCaps capsOf value _ cur hc] <;> rfl

/-- C3: For every descriptor whose key (and alternate key, if any) is
absent from the environment and whose metadata has no default, resolution
fails with the required-key error exactly when the field is explicitly
marked required or the global required option is on and the field is not
explicitly marked not-required; the error names the alternate key if set,
else the key; otherwise resolution succeeds leaving the destination
unchanged. -/
theorem required_missing_policy (capsOf : Ty → Caps) (env : String → Option String)
    (opts : Options) (info : VarInfo) (cur : Value)
    (hk : env info.key = none) (ha : info.alt ≠ "" → env info.alt = none)
    (hd : info.tags.defaultTag = "") :
    processInfo capsOf env opts info cur =
      if isTrue info.tags.required || (opts.required && !isFalse info.tags.required) then
        .error (.requiredMissing (if info.alt ≠ "" then info.alt else info.key))
      else .ok none := by
  simp [processInfo, lookupVal_none env info hk ha, hd]

/-- C8: For every field whose metadata carries a default value, if neither
the key nor the alternate key is found in the environment, resolution uses
the default string as if it had been found and coerces it into the field's
target shape, and the required policy does not fire for that field. -/
theorem default_applied (capsOf : Ty → Caps) (env : String → Option String)
    (opts : Options) (info : VarInfo) (cur : Value)
    (hk : env info.key = none) (ha : info.alt ≠ "" → env info.alt = none)
    (hd : info.tags.defaultTag ≠ "") :
    processInfo capsOf env opts info cur =
      match processField capsOf info.tags.defaultTag info.ty cur with
      | .error e => .error (.parseError info.key info.name info.ty info.tags.defaultTag e)
      | .ok v => .ok (some v) := by
  simp [processInfo, lookupVal_none env info hk ha, hd]

/-- C9: For every field, if the environment contains the field's key with
an empty-string value (present but empty), the default is not applied: the
empty string itself is coerced into the destination — a text field becomes
the empty string and a sequence field becomes the empty sequence. -/
theorem present_empty_overrides_default (capsOf : Ty → Caps) (env : String → Option String)
    (opts : Options) (info : VarInfo) (cur : Value)
    (hk : env info.key = some "") :
    (processInfo capsOf env opts info cur =
      match processField capsOf "" info.ty cur with
      | .error e => .error (.parseError info.key info.name info.ty "" e)
      | .ok v => .ok (some v)) ∧
    (info.ty = .str → capsOf .str = noCaps →
      processInfo capsOf env opts info cur = .ok (some (.vstr ""))) ∧
    (∀ t, info.ty = .slice t → capsOf (.slice t) = noCaps →
      processInfo capsOf env opts info cur = .ok (some (.vslice []))) := by
  have hmain : processInfo capsOf env opts info cur =
      match processField capsOf "" info.ty cur with
      | .error e => .error (.parseError info.key info.name info.ty "" e)
      | .ok v => .ok (some v) := by
    simp [processInfo, lookupVal, hk]
  refine ⟨hmain, ?_, ?_⟩
  · intro hty hc
    rw [hmain, hty, processField_str capsOf hc "" cur]
  · intro t hty hc
    rw [hmain, hty]
    have : processField capsOf "" (.slice t) cur = .ok (.vslice []) := by
      rw [processField_noCaps capsOf "" (.slice t) cur hc]
      show (conv capsOf (.slice t)).sw "" cur = .ok (.vslice [])
      have htrim : goTrim "" = "" := rfl
      by_cases hb : tyIsByte t = true
      · simp [conv, hb, stringBytes]
      · simp [conv, hb, htrim]
    rw [this]

/-! C4 support: the shape of the words the gather regexp produces. -/

/-- A word of the gather pattern `([^A-Z]+|[A-Z]+[^A-Z]+|[A-Z]+)`: a
non-empty run of non-uppercase characters, an uppercase run followed by a
non-uppercase run, or a non-empty uppercase run. -/
def wordShape (w : List Char) : Bool :=
  (!w.isEmpty && w.all (fun c => !isUp c)) ||
  (!(w.takeWhile isUp).isEmpty && !(w.dropWhile isUp).isEmpty &&
    (w.dropWhile isUp).all (fun c => !isUp c)) ||
  (!w.isEmpty && w.all isUp)

/-- A one-character word always has a word shape. -/
theorem wordShape_single (c : Char) : wordShape [c] = true := by
  by_cases hc : isUp c = true <;> simp [wordShape, hc]

/-- Extending a word at the front preserves its shape unless the new
character is non-uppercase and the word starts uppercase (the chunk
boundary of the gather pattern). -/
theorem wordShape_cons (c d : Char) (w : List Char)
    (hw : wordShape (d :: w) = true) (hcd : isUp c = true ∨ isUp d = false) :
    wordShape (c :: d :: w) = true := by
  by_cases hc : isUp c = true <;> by_cases hd : isUp d = true
  · simp [wordShape, hc, hd, List.takeWhile_cons, List.dropWhile_cons] at hw ⊢
    tauto
  · simp [wordShape, hc, hd, List.takeWhile_cons, List.dropWhile_cons] at hw ⊢
    tauto
  · rcases hcd with h1 | h1
    · exact absurd h1 hc
    · exact absurd h1 (by simp [hd])
  · simp [wordShape, hc, hd, List.takeWhile_cons, List.dropWhile_cons] at hw ⊢
    tauto

/-- The words of `tokenize` concatenate back to the input and all have the
shape of a gather-pattern word. -/
theorem tokenize_ok : ∀ l : List Char,
    (tokenize l).flatten = l ∧ ((tokenize l).all wordShape) = true := by
  intro l
  induction l with
  | nil => simp [tokenize]
  | cons c cs ih =>
    match h : tokenize cs with
    | [] =>
      rw [h] at ih
      simp at ih
      subst ih
      simp [tokenize, wordShape_single]
    | [] :: ws =>
      rw [h] at ih
      simp [wordShape] at ih
    | (d :: w) :: ws =>
      rw [h] at ih
      simp only [List.flatten_cons, List.all_cons, Bool.and_eq_true] at ih
      have ih1 := ih.1
      have ih2 := ih.2.1
      have ih3 := ih.2.2
      by_cases hb : (!isUp c && isUp d) = true
      · simp only [tokenize, h, hb, if_pos]
        simp only [List.flatten_cons, List.all_cons, Bool.and_eq_true]
        exact ⟨by simp [ih1], wordShape_single c, ih2, ih3⟩
      · simp only [tokenize, h, hb, if_neg, Bool.false_eq_true, not_false_iff]
        simp only [List.flatten_cons, List.all_cons, Bool.and_eq_true]
        have hcd : isUp c = true ∨ isUp d = false := by
          by_cases h1 : isUp c = true
          · exact Or.inl h1
          · right
            have h2 : isUp c = false := by simpa using h1
            by_cases h3 : isUp d = true
            · exact absurd (by simp [h2, h3] : (!isUp c && isUp d) = true) hb
            · simpa using h3
        exact ⟨by simp [← ih1], wordShape_cons c d w ih2 hcd, ih3⟩

/-- takeWhile runs through a prefix on which the predicate holds. -/
theorem takeWhile_append_of_all (p : Char → Bool) (u v : List Char) (hu : u.all p = true) :
    (u ++ v).takeWhile p = u ++ v.takeWhile p := by
  induction u with
  | nil => simp
  | cons x xs ihx =>
    simp at hu
    simp [List.takeWhile_cons, hu.1, ihx (by simp [List.all_eq_true]; exact hu.2)]

/-- dropWhile drops a prefix on which the predicate holds. -/
theorem dropWhile_append_of_all (p : Char → Bool) (u v : List Char) (hu : u.all p = true) :
    (u ++ v).dropWhile p = v.dropWhile p := by
  induction u with
  | nil => simp
  | cons x xs ihx =>
    simp at hu
    simp [List.dropWhile_cons, hu.1, ihx (by simp [List.all_eq_true]; exact hu.2)]

/-- takeWhile of a list on which the predicate holds everywhere. -/
theorem takeWhile_of_all (p : Char → Bool) (v : List Char) (hv : v.all p = true) :
    v.takeWhile p = v := by
  induction v with
  | nil => simp
  | cons x xs ihx =>
    simp at hv
    simp [List.takeWhile_cons, hv.1, ihx (by simp [List.all_eq_true]; exact hv.2)]

/-- takeWhile of a list on which the predicate fails everywhere. -/
theorem takeWhile_of_all_not (p : Char → Bool) (v : List Char)
    (hv : v.all (fun c => !p c) = true) : v.takeWhile p = [] := by
  cases v with
  | nil => simp
  | cons x xs =>
    simp at hv
    simp [List.takeWhile_cons, hv.1]

/-- dropWhile of a list on which the predicate fails everywhere. -/
theorem dropWhile_of_all_not (p : Char → Bool) (v : List Char)
    (hv : v.all (fun c => !p c) = true) : v.dropWhile p = v := by
  cases v with
  | nil => simp
  | cons x xs =>
    simp at hv
    simp [List.dropWhile_cons, hv.1]

/-- The acronym pattern on a word of shape uppercase-run (length at least
two) followed by a non-uppercase run: the match splits off all but the last
uppercase letter as the acronym and the last uppercase letter plus the
non-uppercase run as the word. -/
theorem findAcr_acronym (x : Char) (u : List Char) (a : Char) (v : List Char)
    (hu : ((x :: u) ++ [a]).all isUp = true)
    (hv : v.all (fun c => !isUp c) = true) (hvne : v ≠ []) :
    findAcr ((x :: u) ++ a :: v) = some (x :: u, a :: v) := by
  have hx : isUp x = true := by
    simp at hu
    exact hu.1
  have hsplit : (x :: u) ++ a :: v = ((x :: u) ++ [a]) ++ v := by simp
  have h1 : ((x :: u) ++ a :: v).takeWhile isUp = (x :: u) ++ [a] := by
    rw [hsplit, takeWhile_append_of_all _ _ _ hu, takeWhile_of_all_not _ _ hv, List.append_nil]
  have h2 : ((x :: u) ++ a :: v).dropWhile isUp = v := by
    rw [hsplit, dropWhile_append_of_all _ _ _ hu, dropWhile_of_all_not _ _ hv]
  have hcons : (x :: u) ++ a :: v = x :: (u ++ a :: v) := by simp
  rw [hcons] at h1 h2 ⊢
  simp only [findAcr, hx, if_pos, h1, h2]
  have hlen : 2 ≤ ((x :: u) ++ [a]).length := by simp
  have hne : v.isEmpty = false := by
    cases v with
    | nil => exact absurd rfl hvne
    | cons y ys => rfl
  rw [if_pos (by simp [hlen, hne])]
  have e1 : ((x :: u) ++ [a]).dropLast = x :: u := List.dropLast_concat
  have e2 : List.drop (((x :: u) ++ [a]).length - 1) ((x :: u) ++ [a]) ++
      List.takeWhile (fun c => !isUp c) v = a :: v := by
    have hl : ((x :: u) ++ [a]).length - 1 = (x :: u).length := by simp
    rw [hl, List.drop_left, takeWhile_of_all _ _ hv]
    rfl
  rw [e1, e2]

/-- C4: For every field identifier with word-splitting in effect, key
derivation segments the identifier into words where a word is a run of
non-uppercase characters, an uppercase run followed by non-uppercase
characters, or a trailing uppercase run (the words concatenate back to the
identifier), additionally splitting any acronym-then-capitalized-word
segment into the acronym and the word, and joins the segments with
underscores; in particular the field name MyISCSIVolume derives the
upper-cased key MY_ISCSI_VOLUME. -/
theorem word_splitting :
    (∀ l : List Char, (tokenize l).flatten = l ∧ ((tokenize l).all wordShape) = true) ∧
    (∀ (x : Char) (u : List Char) (a : Char) (v : List Char),
      ((x :: u) ++ [a]).all isUp = true → v.all (fun c => !isUp c) = true → v ≠ [] →
      findAcr ((x :: u) ++ a :: v) = some (x :: u, a :: v)) ∧
    splitName "MyISCSIVolume" = ["My", "ISCSI", "Volume"] ∧
    fieldKey { splitWords := true } "" { name := "MyISCSIVolume" } = "MY_ISCSI_VOLUME" :=
  ⟨tokenize_ok, findAcr_acronym, rfl, rfl⟩

/-- Witness for C4 at a concrete input: the acronym rule applied to the
word ISCSIVolume splits it into ISCSI and Volume. -/
theorem word_splitting_witness :
    findAcr (('I' :: ['S', 'C', 'S', 'I']) ++ 'V' :: ['o', 'l', 'u', 'm', 'e']) =
      some ('I' :: ['S', 'C', 'S', 'I'], 'V' :: ['o', 'l', 'u', 'm', 'e']) :=
  word_splitting.2.1 'I' ['S', 'C', 'S', 'I'] 'V' ['o', 'l', 'u', 'm', 'e']
    (by decide) (by decide) (by decide)

/-! C1 support: the behavior of the map pair loop over string keys and
values. -/

/-- The pair loop on pairs that all split into exactly two parts: a left
fold of last-write-wins insertions of the two sides. -/
theorem convPairs_ok (fk fv : String → Except CoerceErr Value)
    (hfk : ∀ s, fk s = .ok (.vstr s)) (hfv : ∀ s, fv s = .ok (.vstr s)) :
    ∀ (pairs : List String) (acc : List (Value × Value)),
    (∀ p ∈ pairs, (goSplit p ':').length = 2) →
    convPairs fk fv pairs acc =
      .ok (pairs.foldl (fun es p =>
        mapInsert es (.vstr ((goSplit p ':').getD 0 "")) (.vstr ((goSplit p ':').getD 1 ""))) acc) := by
  intro pairs
  induction pairs with
  | nil => intro acc _; rfl
  | cons p rest ih =>
    intro acc hlen
    have hp : (goSplit p ':').length = 2 := hlen p (by simp)
    simp only [convPairs, hp, if_pos, hfk, hfv, List.foldl_cons]
    exact ih _ (fun q hq => hlen q (by simp [hq]))

/-- The pair loop stops with the malformed-pair error at the first pair
that does not split into exactly two parts. -/
theorem convPairs_err (fk fv : String → Except CoerceErr Value)
    (hfk : ∀ s, fk s = .ok (.vstr s)) (hfv : ∀ s, fv s = .ok (.vstr s)) :
    ∀ (good : List String) (bad : String) (rest : List String) (acc : List (Value × Value)),
    (∀ p ∈ good, (goSplit p ':').length = 2) → (goSplit bad ':').length ≠ 2 →
    convPairs fk fv (good ++ bad :: rest) acc = .error (.invalidMapItem bad) := by
  intro good
  induction good with
  | nil =>
    intro bad rest acc _ hbad
    simp only [List.nil_append, convPairs, if_neg hbad]
  | cons p gs ih =>
    intro bad rest acc hlen hbad
    have hp : (goSplit p ':').length = 2 := hlen p (by simp)
    simp only [List.cons_append, convPairs, hp, if_pos, hfk, hfv]
    exact ih bad rest _ (fun q hq => hlen q (by simp [hq])) hbad

/-- Inserting a string-keyed binding makes lookup of that key return the
inserted value (last write wins). -/
theorem mapLookup_insert (es : List (Value × Value)) (a : String) (v : Value) :
    mapLookup (mapInsert es (.vstr a) v) (.vstr a) = some v := by
  induction es with
  | nil => simp [mapInsert, mapLookup, valueBEq, List.find?]
  | cons e es' ih =>
    by_cases hb : valueBEq e.1 (.vstr a) = true
    · simp [mapInsert, mapLookup, List.any_cons, hb, List.find?]
    · by_cases h2 : (es'.any (fun x => valueBEq x.1 (.vstr a))) = true
      · simp only [mapInsert, List.any_cons, hb, h2, Bool.false_or, if_pos, List.map_cons,
          if_neg] at ih ⊢
        simp only [mapLookup, List.find?, hb] at ih ⊢
        simpa [hb] using ih
      · simp only [mapInsert, List.any_cons, hb, h2, Bool.false_or, if_neg, List.cons_append,
          Bool.false_eq_true, not_false_iff] at ih ⊢
        simp only [mapLookup, List.find?, hb] at ih ⊢
        simpa [hb] using ih

/-- The element coercion the map case uses for a capability-free string
side returns the side verbatim. -/
theorem convStr_full (capsOf : Ty → Caps) (hc : capsOf .str = noCaps) (s : String) :
    (conv capsOf .str).full s (zeroValue .str) = .ok (.vstr s) :=
  processField_str capsOf hc s (zeroValue .str)

/-- Modelled from the spec: splitting a pair on the FIRST colon only, into
a key substring and a value substring, as the claim reads. -/
def splitPairOnFirstColon (p : String) : List String :=
  match goSplit p ':' with
  | [] => []
  | [x] => [x]
  | x :: rest => [x, String.intercalate ":" rest]

/-- C1 counterexample: the pair a:b:c splits into exactly two parts under
the claim's first-colon rule — so the claim predicts a successful coercion
with key a and value b:c — but the code splits on every colon, finds three
parts, and fails with the invalid-map-entry error. -/
theorem map_first_colon_counterexample :
    splitPairOnFirstColon "a:b:c" = ["a", "b:c"] ∧
    (splitPairOnFirstColon "a:b:c").length = 2 ∧
    processField (fun _ => noCaps) "a:b:c" (.mp .str .str) (.vmap []) =
      .error (.invalidMapItem "a:b:c") :=
  ⟨rfl, rfl, rfl⟩

/-- C1 amended: for every mapping-shaped destination and every found value
string, coercion splits the string on every comma into pairs and splits
each pair on EVERY colon; a pair that does not split into exactly two parts
makes coercion fail with the invalid-map-entry error (at the first such
pair), and otherwise each side is recursively coerced and inserted with
last write winning on duplicate keys (so k1:v1,k2:v2 yields the two-entry
map, badpair fails, and k:a,k:b keeps only k:b). -/
theorem map_coercion_amended :
    (∀ (capsOf : Ty → Caps) (value : String) (cur : Value),
      capsOf (.mp .str .str) = noCaps → capsOf .str = noCaps → goTrim value ≠ "" →
      ((∀ p ∈ goSplit value ',', (goSplit p ':').length = 2) →
        processField capsOf value (.mp .str .str) cur =
          .ok (.vmap ((goSplit value ',').foldl
            (fun es p => mapInsert es (.vstr ((goSplit p ':').getD 0 ""))
              (.vstr ((goSplit p ':').getD 1 ""))) []))) ∧
      (∀ good bad rest, goSplit value ',' = good ++ bad :: rest →
        (∀ p ∈ good, (goSplit p ':').length = 2) → (goSplit bad ':').length ≠ 2 →
        processField capsOf value (.mp .str .str) cur = .error (.invalidMapItem bad))) ∧
    (∀ (es : List (Value × Value)) (a : String) (v : Value),
      mapLookup (mapInsert es (.vstr a) v) (.vstr a) = some v) ∧
    processField (fun _ => noCaps) "k1:v1,k2:v2" (.mp .str .str) (.vmap []) =
      .ok (.vmap [(.vstr "k1", .vstr "v1"), (.vstr "k2", .vstr "v2")]) ∧
    processField (fun _ => noCaps) "badpair" (.mp .str .str) (.vmap []) =
      .error (.invalidMapItem "badpair") ∧
    processField (fun _ => noCaps) "k:a,k:b" (.mp .str .str) (.vmap []) =
      .ok (.vmap [(.vstr "k", .vstr "b")]) := by
  refine ⟨?_, mapLookup_insert, rfl, rfl, rfl⟩
  intro capsOf value cur hmp hstr htrim
  have hbase : processField capsOf value (.mp .str .str) cur =
      match convPairs (fun s => (conv capsOf .str).full s (zeroValue .str))
        (fun s => (conv capsOf .str).full s (zeroValue .str)) (goSplit value ',') [] with
      | .error e => .error e
      | .ok es => .ok (.vmap es) := by
    rw [processField_noCaps capsOf value _ cur hmp]
    show (conv capsOf (.mp .str .str)).sw value cur = _
    simp only [conv, if_neg htrim]
  constructor
  · intro hlen
    rw [hbase, convPairs_ok _ _ (convStr_full capsOf hstr) (convStr_full capsOf hstr)
      (goSplit value ',') [] hlen]
  · intro good bad rest hsplit hgood hbad
    rw [hbase, hsplit, convPairs_err _ _ (convStr_full capsOf hstr) (convStr_full capsOf hstr)
      good bad rest [] hgood hbad]

/-- Witness for the amended C1 at a concrete input: x:1,y:2,x:3 has pairs
that all split in two, so coercion folds them up with last write winning on
the duplicate key x. -/
theorem map_coercion_amended_witness :
    processField (fun _ => noCaps) "x:1,y:2,x:3" (.mp .str .str) (.vmap []) =
      .ok (.vmap [(.vstr "x", .vstr "3"), (.vstr "y", .vstr "2")]) := by
  have h := ((map_coercion_amended.1 (fun _ => noCaps) "x:1,y:2,x:3" (.vmap [])
    rfl rfl (by decide)).1 (by decide))
  rw [h]
  rfl

/-- C2: For every structure-valued field without any self-conversion
capability, discovery recurses into it and the parent's own descriptor is
replaced by the descriptors produced for its children (the parent is not
independently bound); when recursing, a named nested field uses its own
derived key as the inner prefix for its children while an
anonymous/embedded field passes the outer prefix through unchanged. -/
theorem gather_struct_recursion (capsOf : Ty → Caps) (opts : Options) ( pfx : String)
    (base : List Step) (idx : Nat) (fm : FieldMeta) (ft : Ty) (fs : List (FieldMeta × Ty))
    (v : Value) (vs : List Value) (dval v1 : Value) (steps : List Step)
    (innerFields : List (FieldMeta × Ty))
    (hcs : fm.canSet = true) (hig : isTrue fm.tags.ignored = false)
    (hda : derefAlloc ft v = (.strct innerFields, dval, v1, steps))
    (hnc : hasNoCaps (capsOf (.strct innerFields)) = true) :
    (gatherStruct capsOf opts pfx base idx ((fm, ft) :: fs) (v :: vs)).1 =
      (gatherStruct capsOf opts (if fm.anonymous then pfx else fieldKey opts pfx fm)
        (base ++ (Step.fld idx :: steps)) 0 innerFields (structFields dval)).1
      ++ (gatherStruct capsOf opts pfx base (idx + 1) fs vs).1 := by
  rw [gatherStruct]
  simp only [hcs, hig, hda, hnc, Bool.not_true, Bool.false_or, Bool.or_self, if_neg,
    Bool.false_eq_true, not_false_iff, if_pos]
  split
  · next ifs h1a h1b hfst hheq =>
      simp only [hda] at hfst
      injection hfst with h
      subst h
      rw [if_pos hnc]
  · next hx h1a =>
      exfalso
      have e : derefAlloc ft v =
          (Ty.strct innerFields, (derefAlloc ft v).2.1, (derefAlloc ft v).2.2.1,
            (derefAlloc ft v).2.2.2) := by
        rw [hda]
      exact h1a innerFields e (by rw [hda]) (proof_irrel_heq _ _)

/-- Witness for C2 at concrete inputs: a named nested structure field Named
under prefix P is replaced by its children gathered under the inner prefix
P_NAMED, while an anonymous field is replaced by its children gathered
under the outer prefix P itself. -/
theorem gather_struct_recursion_witness :
    ((gatherStruct (fun _ => noCaps) {} "P" [] 0
        [({ name := "Named" }, .strct [({ name := "X" }, .str)])] [.vstruct [.vstr ""]]).1 =
      (gatherStruct (fun _ => noCaps) {} "P_NAMED" [Step.fld 0] 0
        [({ name := "X" }, .str)] [.vstr ""]).1
      ++ (gatherStruct (fun _ => noCaps) {} "P" [] 1
        ([] : List (FieldMeta × Ty)) ([] : List Value)).1) ∧
    ((gatherStruct (fun _ => noCaps) {} "P" [] 0
        [({ name := "Emb", anonymous := true }, .strct [({ name := "X" }, .str)])]
        [.vstruct [.vstr ""]]).1 =
      (gatherStruct (fun _ => noCaps) {} "P" [Step.fld 0] 0
        [({ name := "X" }, .str)] [.vstr ""]).1
      ++ (gatherStruct (fun _ => noCaps) {} "P" [] 1
        ([] : List (FieldMeta × Ty)) ([] : List Value)).1) := by
  constructor
  · have h := gather_struct_recursion (fun _ => noCaps) {} "P" [] 0
      { name := "Named" } (.strct [({ name := "X" }, .str)]) []
      (.vstruct [.vstr ""]) [] (.vstruct [.vstr ""]) (.vstruct [.vstr ""]) []
      [({ name := "X" }, .str)] rfl rfl rfl rfl
    simpa using h
  · have h := gather_struct_recursion (fun _ => noCaps) {} "P" [] 0
      { name := "Emb", anonymous := true } (.strct [({ name := "X" }, .str)]) []
      (.vstruct [.vstr ""]) [] (.vstruct [.vstr ""]) (.vstruct [.vstr ""]) []
      [({ name := "X" }, .str)] rfl rfl rfl rfl
    simpa using h

/-- C7: With parallel execution disabled, process resolves descriptors
strictly in discovery order and returns the first resolution error
immediately: when the sequential loop fails, there is a position k such
that the returned state is exactly the state after the descriptors before
k all resolved (those fields keep their new values and no later descriptor
was executed, so fields after k keep their prior values), and the k-th
descriptor is the first failing one, whose error is the one returned. -/
theorem sequential_fail_fast (capsOf : Ty → Caps) (env : String → Option String)
    (opts : Options) :
    ∀ (infos : List VarInfo) (st st' : Value) (e : ProcErr),
    processSeq capsOf env opts infos st = (st', some e) →
    ∃ k, ∃ hk : k < infos.length,
      processSeq capsOf env opts (infos.take k) st = (st', none) ∧
      processInfo capsOf env opts (infos.get ⟨k, hk⟩)
        ((getPath st' (infos.get ⟨k, hk⟩).path).getD .vother) = .error e := by
  intro infos
  induction infos with
  | nil =>
    intro st st' e h
    simp [processSeq] at h
  | cons info rest ih =>
    intro st st' e h
    match hpi : processInfo capsOf env opts info ((getPath st info.path).getD .vother) with
    | .error e0 =>
      rw [processSeq, hpi] at h
      obtain ⟨h1, h2⟩ := Prod.mk.injEq .. ▸ h
      refine ⟨0, by simp, ?_, ?_⟩
      · simp [processSeq, h1]
      · rw [h1, Option.some_inj.mp h2] at hpi
        simpa using hpi
    | .ok none =>
      rw [processSeq, hpi] at h
      obtain ⟨k, hk, h1, h2⟩ := ih st st' e h
      refine ⟨k + 1, by simpa using Nat.succ_lt_succ hk, ?_, ?_⟩
      · rw [List.take_succ_cons, processSeq, hpi]
        exact h1
      · exact h2
    | .ok (some v') =>
      rw [processSeq, hpi] at h
      obtain ⟨k, hk, h1, h2⟩ := ih ((setPath st info.path v').getD st) st' e h
      refine ⟨k + 1, by simpa using Nat.succ_lt_succ hk, ?_, ?_⟩
      · rw [List.take_succ_cons, processSeq, hpi]
        exact h1
      · exact h2

/-- A descriptor that writes the first field. -/
def wInfoW : VarInfo :=
  { name := "W", alt := "", key := "W", ty := .str, path := [.fld 0], tags := {} }

/-- A required descriptor bound to the second field. -/
def wInfoR2 : VarInfo :=
  { name := "R", alt := "", key := "R", ty := .str, path := [.fld 1]
    tags := { required := "true" } }

/-- Witness for C7 at a concrete input: with W present and R required but
absent, the loop populates the first field, then stops at the second with
the required-key error, returning the state in which the first field holds
its new value and the second its prior value. -/
theorem sequential_fail_fast_witness :
    ∃ k, ∃ hk : k < [wInfoW, wInfoR2].length,
      processSeq (fun _ => noCaps) (fun k => if k = "W" then some "x" else none) {}
        ([wInfoW, wInfoR2].take k) (.vstruct [.vstr "", .vstr "old"]) =
        (.vstruct [.vstr "x", .vstr "old"], none) ∧
      processInfo (fun _ => noCaps) (fun k => if k = "W" then some "x" else none) {}
        ([wInfoW, wInfoR2].get ⟨k, hk⟩)
        ((getPath (.vstruct [.vstr "x", .vstr "old"])
          ([wInfoW, wInfoR2].get ⟨k, hk⟩).path).getD .vother) =
        .error (.requiredMissing "R") :=
  sequential_fail_fast (fun _ => noCaps) (fun k => if k = "W" then some "x" else none) {}
    [wInfoW, wInfoR2] (.vstruct [.vstr "", .vstr "old"])
    (.vstruct [.vstr "x", .vstr "old"]) (.requiredMissing "R") rfl

/-! C6 support: the effect of discovery-time allocation on an all-zero
structure. -/

mutual
/-- The value a settable, non-ignored field of the given type holds after a
discovery pass over an all-zero structure with no environment writes: the
zero value, except that structures are recursively allocated — a (pointer
to a) capability-free structure has its nil struct pointers filled in
recursively, and a nil pointer to a structure is allocated to point at such
a zero structure. -/
def zeroAllocField (capsOf : Ty → Caps) : Ty → Value
  | .strct fs =>
    if hasNoCaps (capsOf (.strct fs)) then .vstruct (zeroAllocFields capsOf fs)
    else zeroValue (.strct fs)
  | .ptr t =>
    match t with
    | .strct fs =>
      if hasNoCaps (capsOf (.strct fs)) then .vptr (.vstruct (zeroAllocFields capsOf fs))
      else .vptr (zeroValue (.strct fs))
    | _ => zeroValue (.ptr t)
  | t => zeroValue t

/-- `zeroAllocField` across a structure's fields, skipping non-settable and
ignored fields. -/
def zeroAllocFields (capsOf : Ty → Caps) : List (FieldMeta × Ty) → List Value
  | [] => []
  | (fm, ft) :: fs =>
    (if !fm.canSet || isTrue fm.tags.ignored then zeroValue ft else zeroAllocField capsOf ft) ::
      zeroAllocFields capsOf fs
end

/-- A discovery pass over a structure whose fields all hold their zero
values performs exactly the nil-struct-pointer allocations and no other
mutation. -/
theorem gather_zero (capsOf : Ty → Caps) (opts : Options) :
    ∀ (n : Nat) (fields : List (FieldMeta × Ty)) ( pfx : String) (base : List Step) (idx : Nat),
    sizeOf fields ≤ n →
    (gatherStruct capsOf opts pfx base idx fields (zeroFields fields)).2 =
      zeroAllocFields capsOf fields := by
  intro n
  induction n with
  | zero =>
    intro fields pfx base idx h
    exfalso
    have : 0 < sizeOf fields := by cases fields <;> simp_arith
    omega
  | succ n ih =>
    intro fields pfx base idx h
    match fields with
    | [] =>
      rw [gatherStruct]
      simp [zeroFields, zeroAllocFields]
    | (fm, ft) :: fs =>
      have hszfs : sizeOf fs ≤ n := by
        simp_arith at h
        omega
      have hrest := ih fs pfx base (idx + 1) hszfs
      show (gatherStruct capsOf opts pfx base idx ((fm, ft) :: fs)
        (zeroValue ft :: zeroFields fs)).2 = _
      rw [gatherStruct]
      by_cases hskip : (!fm.canSet || isTrue fm.tags.ignored) = true
      · simp only [hskip, if_pos, hrest, zeroAllocFields]
      · match ft with
        | .str | .int _ | .duration | .uint _ | .bool | .float _ | .slice _ | .mp _ _ | .other =>
          simp only [Bool.not_eq_true] at hskip
          simp only [hskip, if_neg, Bool.false_eq_true, not_false_iff, zeroValue, derefAlloc,
            zeroAllocFields, zeroAllocField, hrest]
        | .strct innerFs =>
          have hszin : sizeOf innerFs ≤ n := by
            simp_arith at h
            omega
          simp only [Bool.not_eq_true] at hskip
          simp only [hskip, if_neg, Bool.false_eq_true, not_false_iff, zeroValue, derefAlloc]
          by_cases hnc : hasNoCaps (capsOf (.strct innerFs)) = true
          · simp only [hnc, if_pos, structFields, ih innerFs _ _ 0 hszin, setPath,
              Option.getD_some, hrest, zeroAllocFields, zeroAllocField, hskip,
              Bool.false_eq_true, not_false_iff, if_neg]
          · simp only [hnc, if_neg, Bool.false_eq_true, not_false_iff, hrest,
              zeroAllocFields, zeroAllocField, zeroValue, hskip]
        | .ptr t =>
          simp only [Bool.not_eq_true] at hskip
          match t with
          | .strct innerFs =>
            have hszin : sizeOf innerFs ≤ n := by
              simp_arith at h
              omega
            simp only [hskip, if_neg, Bool.false_eq_true, not_false_iff, zeroValue, derefAlloc]
            by_cases hnc : hasNoCaps (capsOf (.strct innerFs)) = true
            · simp only [hnc, if_pos, structFields, ih innerFs _ _ 0 hszin, setPath,
                Option.map_some, Option.getD_some, hrest, zeroAllocFields, zeroAllocField,
                hskip, Bool.false_eq_true, not_false_iff, if_neg]
              simp
            · simp only [hnc, if_neg, Bool.false_eq_true, not_false_iff, hrest,
                zeroAllocFields, zeroAllocField, zeroValue, hskip]
          | .str | .int _ | .duration | .uint _ | .bool | .float _ | .ptr _ | .slice _
          | .mp _ _ | .other =>
            simp only [hskip, if_neg, Bool.false_eq_true, not_false_iff, zeroValue, derefAlloc,
              zeroAllocFields, zeroAllocField, hrest]

/-- A descriptor whose keys are absent, with no default, not required, and
the global required option off, is skipped without error whatever the
destination holds. -/
theorem processInfo_skip (capsOf : Ty → Caps) (env : String → Option String) (opts : Options)
    (info : VarInfo) (cur : Value)
    (hk : env info.key = none) (ha : info.alt ≠ "" → env info.alt = none)
    (hd : info.tags.defaultTag = "") (hr : isTrue info.tags.required = false)
    (ho : opts.required = false) :
    processInfo capsOf env opts info cur = .ok none := by
  simp [processInfo, lookupVal_none env info hk ha, hd, hr, ho]

/-- A sequential pass in which every descriptor is skipped leaves the state
untouched and succeeds. -/
theorem processSeq_no_writes (capsOf : Ty → Caps) (env : String → Option String)
    (opts : Options) :
    ∀ (infos : List VarInfo) (st : Value),
    (∀ info ∈ infos, ∀ cur, processInfo capsOf env opts info cur = .ok none) →
    processSeq capsOf env opts infos st = (st, none) := by
  intro infos
  induction infos with
  | nil => intro st _; rfl
  | cons info rest ih =>
    intro st hall
    rw [processSeq, hall info (by simp) _]
    exact ih st (fun i hi cur => hall i (by simp [hi]) cur)

/-- C6 amended: for every structure whose discovered descriptors carry no
default, are not marked required (with the global required option off), and
whose keys are all absent from the environment, running the sequential
process over the all-zero structure succeeds and leaves every field at its
zero value EXCEPT that structures are recursively allocated: a nil pointer
to a (capability-free) structure is allocated to point at a zero structure;
nil pointers to non-structure types remain nil and unset scalar fields
remain zero (the `zeroAllocFields` shape). -/
theorem process_empty_env_amended (capsOf : Ty → Caps) (env : String → Option String)
    ( pfx : String) (fields : List (FieldMeta × Ty)) (opts : Options)
    (ho : opts.required = false)
    (hinfos : ∀ info ∈ (gatherStruct capsOf opts pfx [] 0 fields (zeroFields fields)).1,
      env info.key = none ∧ (info.alt ≠ "" → env info.alt = none) ∧
      info.tags.defaultTag = "" ∧ isTrue info.tags.required = false) :
    processSequential capsOf env pfx (.strct fields) (zeroValue (.strct fields)) opts =
      (.vstruct (zeroAllocFields capsOf fields), none) := by
  have hz : zeroValue (.strct fields) = .vstruct (zeroFields fields) := by
    rw [zeroValue]
  rw [hz, processSequential]
  have h2 := gather_zero capsOf opts (sizeOf fields) fields pfx [] 0 le_rfl
  match hg : gatherStruct capsOf opts pfx [] 0 fields (zeroFields fields) with
  | (infos, vs') =>
    rw [hg] at h2 hinfos
    simp only at h2
    rw [h2]
    exact processSeq_no_writes capsOf env opts infos (.vstruct (zeroAllocFields capsOf fields))
      (fun i hi cur => processInfo_skip capsOf env opts i cur (hinfos i hi).1 (hinfos i hi).2.1
        (hinfos i hi).2.2.1 (hinfos i hi).2.2.2 ho)

set_option maxRecDepth 10000 in
unseal gatherStruct in
/-- C6 counterexample: a structure with a single optional field A of
pointer-to-structure type, processed with an empty environment.  The claim
says every field is left at its zero value and nil pointer fields remain
nil; the code allocates A during discovery, so the pass succeeds with A
pointing at a zero structure, which differs from the nil zero value. -/
theorem zero_value_counterexample :
    processSequential (fun _ => noCaps) (fun _ => none) ""
        (.strct [({ name := "A" }, .ptr (.strct [({ name := "X" }, .str)]))])
        (zeroValue (.strct [({ name := "A" }, .ptr (.strct [({ name := "X" }, .str)]))])) {} =
      (.vstruct [.vptr (.vstruct [.vstr ""])], none) ∧
    zeroValue (.strct [({ name := "A" }, .ptr (.strct [({ name := "X" }, .str)]))]) =
      .vstruct [.vnil] ∧
    Value.vptr (.vstruct [.vstr ""]) ≠ Value.vnil := by
  refine ⟨rfl, rfl, by simp⟩

set_option maxRecDepth 10000 in
unseal gatherStruct in
/-- Witness for the amended C6 at a concrete input: a structure with a
pointer-to-structure field, a pointer-to-integer field and a string field,
processed against an empty environment, ends with the first field allocated
to a zero structure, the second still nil and the third the empty string —
exactly the zero-with-allocation shape. -/
theorem process_empty_env_amended_witness :
    processSequential (fun _ => noCaps) (fun _ => none) ""
        (.strct [({ name := "A" }, .ptr (.strct [({ name := "X" }, .str)])),
                 ({ name := "B" }, .ptr (.int 64)), ({ name := "C" }, .str)])
        (zeroValue (.strct [({ name := "A" }, .ptr (.strct [({ name := "X" }, .str)])),
                 ({ name := "B" }, .ptr (.int 64)), ({ name := "C" }, .str)])) {} =
      (.vstruct (zeroAllocFields (fun _ => noCaps)
        [({ name := "A" }, .ptr (.strct [({ name := "X" }, .str)])),
         ({ name := "B" }, .ptr (.int 64)), ({ name := "C" }, .str)]), none) :=
  process_empty_env_amended (fun _ => noCaps) (fun _ => none) ""
    [({ name := "A" }, .ptr (.strct [({ name := "X" }, .str)])),
     ({ name := "B" }, .ptr (.int 64)), ({ name := "C" }, .str)] {} rfl (by decide)

/-! Witness support definitions: concrete capability assignments and
descriptors. -/

/-- All four capabilities present, each tagging its output. -/
def wCapsDecode : Caps :=
  { decode := some (fun s => .ok (.vstr ("D" ++ s)))
    setcap := some (fun s => .ok (.vstr ("S" ++ s)))
    text := some (fun s => .ok (.vstr ("T" ++ s)))
    binary := some (fun s => .ok (.vstr ("B" ++ s))) }

/-- Set, text and binary capabilities present. -/
def wCapsSet : Caps :=
  { setcap := some (fun s => .ok (.vstr ("S" ++ s)))
    text := some (fun s => .ok (.vstr ("T" ++ s)))
    binary := some (fun s => .ok (.vstr ("B" ++ s))) }

/-- Text and binary capabilities present. -/
def wCapsText : Caps :=
  { text := some (fun s => .ok (.vstr ("T" ++ s)))
    binary := some (fun s => .ok (.vstr ("B" ++ s))) }

/-- Only the binary capability present. -/
def wCapsBinary : Caps :=
  { binary := some (fun s => .ok (.vstr ("B" ++ s))) }

/-- A descriptor marked required with no default. -/
def wInfoReq : VarInfo :=
  { name := "R", alt := "", key := "R", ty := .str, path := [.fld 0]
    tags := { required := "true" } }

/-- A descriptor with an alternate key and no annotations. -/
def wInfoOpt : VarInfo :=
  { name := "S", alt := "ALT_S", key := "S", ty := .str, path := [.fld 1], tags := {} }

/-- A descriptor with a default value. -/
def wInfoDef : VarInfo :=
  { name := "D", alt := "", key := "D", ty := .str, path := [.fld 0]
    tags := { defaultTag := "dv" } }

/-- A descriptor for a string-sequence field with a default value. -/
def wInfoSlice : VarInfo :=
  { name := "L", alt := "", key := "L", ty := .slice .str, path := [.fld 1]
    tags := { defaultTag := "a,b" } }

/-- Witness for C5 at concrete inputs: each capability tier answers when
the tiers before it are absent, and with no capability the built-in
fallback runs. -/
theorem conversion_precedence_witness :
    processField (fun _ => wCapsDecode) "x" .other .vother = .ok (.vstr "Dx") ∧
    processField (fun _ => wCapsSet) "x" .other .vother = .ok (.vstr "Sx") ∧
    processField (fun _ => wCapsText) "x" .other .vother = .ok (.vstr "Tx") ∧
    processField (fun _ => wCapsBinary) "x" .other .vother = .ok (.vstr "Bx") ∧
    processField (fun _ => noCaps) "x" .other .vother =
      fallbackCoerce (fun _ => noCaps) "x" .other .vother := by
  refine ⟨?_, ?_, ?_, ?_, ?_⟩
  · exact (conversion_precedence (fun _ => wCapsDecode) "x" .other .vother).1 _ rfl
  · exact (conversion_precedence (fun _ => wCapsSet) "x" .other .vother).2.1 _ rfl rfl
  · exact (conversion_precedence (fun _ => wCapsText) "x" .other .vother).2.2.1 _ rfl rfl rfl
  · exact (conversion_precedence (fun _ => wCapsBinary) "x" .other .vother).2.2.2.1 _ rfl rfl rfl rfl
  · exact (conversion_precedence (fun _ => noCaps) "x" .other .vother).2.2.2.2 rfl rfl rfl rfl

/-- Witness for C10 at a concrete input: an `other`-shaped destination with
no capability is left unchanged and no error is produced. -/
theorem unsupported_shape_noop_witness :
    processField (fun _ => noCaps) "v" .other .vother = .ok .vother :=
  unsupported_shape_noop (fun _ => noCaps) "v" .vother .other rfl (Or.inl rfl)

/-- Witness for C3 at concrete inputs: a required field with nothing found
fails naming its key, and an unannotated field is skipped without error. -/
theorem required_missing_policy_witness :
    processInfo (fun _ => noCaps) (fun _ => none) {} wInfoReq (.vstr "") =
      .error (.requiredMissing "R") ∧
    processInfo (fun _ => noCaps) (fun _ => none) {} wInfoOpt (.vstr "") = .ok none := by
  constructor
  · rw [required_missing_policy (fun _ => noCaps) (fun _ => none) {} wInfoReq (.vstr "") rfl
      (fun h => (h rfl).elim) rfl]
    rfl
  · rw [required_missing_policy (fun _ => noCaps) (fun _ => none) {} wInfoOpt (.vstr "") rfl
      (fun _ => rfl) rfl]
    rfl

/-- Witness for C8 at concrete inputs: with nothing in the environment the
default is coerced into the field — verbatim for a text field, split into a
sequence for a sequence field — and no required error fires. -/
theorem default_applied_witness :
    processInfo (fun _ => noCaps) (fun _ => none) {} wInfoDef (.vstr "") =
      .ok (some (.vstr "dv")) ∧
    processInfo (fun _ => noCaps) (fun _ => none) {} wInfoSlice (.vslice []) =
      .ok (some (.vslice [.vstr "a", .vstr "b"])) := by
  constructor
  · rw [default_applied (fun _ => noCaps) (fun _ => none) {} wInfoDef (.vstr "") rfl
      (fun h => (h rfl).elim) (by decide)]
    rfl
  · rw [default_applied (fun _ => noCaps) (fun _ => none) {} wInfoSlice (.vslice []) rfl
      (fun h => (h rfl).elim) (by decide)]
    rfl

/-- Witness for C9 at a concrete input: the key is present with an empty
value, so the default "dv" is not applied and the empty string is coerced
instead. -/
theorem present_empty_overrides_default_witness :
    processInfo (fun _ => noCaps) (fun k => if k = "D" then some "" else none) {} wInfoDef
      (.vstr "x") = .ok (some (.vstr "")) :=
  (present_empty_overrides_default (fun _ => noCaps)
    (fun k => if k = "D" then some "" else none) {} wInfoDef (.vstr "x") rfl).2.1 rfl rfl

end Envconfig
